import Mathlib

/-!
# boost_event_loop: socket / timer multiplexer over a one-shot reactor

A shallow embedding of `src/swarm/manager/boost_event_loop.cpp`.

* The C++ heap is explicit: every `boost_socket_info` ever made by
  `std::make_shared` has an index into `State.infos`; every cell made by
  `new ptr(...)` (the opaque handle handed to the listener) has an index into
  `State.cells`.  A cell holds `some id` while it owns a strong reference and
  `none` once it was deleted.  Dereferencing or deleting a null, unknown or
  already deleted handle is undefined behaviour in C++ and is the failure
  `Failure.undefined_behaviour` here.
* A `std::weak_ptr` is the index of its `boost_socket_info`; it locks exactly
  when some live cell still owns that index.  When the last owner goes, the
  socket's destructor cancels the waits pending on it; their handlers still
  run, so the waits stay in the pending list until the reactor fires them.
* The reactor (`boost::asio::io_service`, sockets, `m_timer`) is the
  environment: pending socket waits, pending timer waits and the run queue are
  lists in the state, and the reactor's moves (`fire`, `expire`, `run_one`)
  are explicit steps.
* The listener is the environment too: its callbacks answer with a list of
  calls back into the event loop, executed synchronously (reentrancy).
* Logging is left out, except that evaluating a log argument may dereference
  the handle.
-/

namespace ioremap.swarm

/-! ## Enumerations declared outside the sources -/

/-- Modelled from the spec: the enum `event_loop::poll_option` is declared in a
header that is not among the sources.  The spec names the conditions read,
write, read+write and none; the code tests them as bit flags
(`info->what & poll_in`), so read and write are the two low bits, read+write is
their union and none (removal) is a further value. -/
abbrev poll_in : Nat := 1

/-- Modelled from the spec: the write condition of `event_loop::poll_option`. -/
abbrev poll_out : Nat := 2

/-- Modelled from the spec: the condition none of `event_loop::poll_option`,
which requests removal. -/
abbrev poll_remove : Nat := 4

/-- Modelled from the spec: the enum `event_listener::socket_action` is declared
in a header that is not among the sources; the spec names the directions read
and write. -/
abbrev socket_read : Nat := 1

/-- Modelled from the spec: the write direction of
`event_listener::socket_action`. -/
abbrev socket_write : Nat := 2

/-! ## Data model -/

/-- Ways in which a call can fail to return. -/
inductive Failure where
  /-- a null, unknown or deleted handle was dereferenced or deleted -/
  | undefined_behaviour
  /-- the `boost::system::system_error` thrown by `socket.assign` -/
  | system_error
deriving DecidableEq, Repr

/-- The record `struct boost_socket_info`: the socket (known by the descriptor
assigned to it) and the watched condition. -/
structure boost_socket_info where
  socket : Int
  what : Nat
deriving DecidableEq, Repr

/-- A pending one-shot socket wait: the arguments bound into the completion
handler `boost::bind(&boost_event_loop::on_event, this, fd, weak_info, what, _1)`. -/
structure Wait where
  fd : Int
  weak_info : Nat
  what : Nat
deriving DecidableEq, Repr

/-- A call of the listener back into the event loop. -/
inductive Call where
  | socket_request (fd : Int) (what : Nat) (data : Option Nat)
  | timer_request (timeout_ms : Int)
deriving DecidableEq, Repr

/-- A handler that is ready to run on the run queue of the `io_service`. -/
inductive Task where
  /-- the handler `std::bind(&event_listener::on_timer, listener())`, either
  posted or completed by `m_timer` with the given error flag
  (`true` is `operation_aborted`); the bind expression drops the flag -/
  | on_timer (error : Bool)
  /-- a function given to `post` -/
  | func (calls : List Call)
deriving DecidableEq, Repr

/-- What the event loop did, in order: listener callbacks and the asynchronous
operations it started. -/
inductive Event where
  | set_socket_data (fd : Int) (data : Nat)
  | on_socket_event (fd : Int) (what : Nat)
  | on_timer
  | async_read_some (fd : Int) (info : Nat)
  | async_write_some (fd : Int) (info : Nat)
  | async_wait (timeout_ms : Int)
  | post_on_timer
  | post_func
deriving DecidableEq, Repr

/-- The heap, the reactor and the history of one `boost_event_loop`. -/
structure State where
  /-- every `boost_socket_info` made so far, by index -/
  infos : List boost_socket_info
  /-- every `new ptr(...)` cell made so far, by handle; `none` once deleted -/
  cells : List (Option Nat)
  /-- socket waits whose completion handler has not run yet -/
  waits : List Wait
  /-- waits pending on `m_timer` (the timeout each was started with) -/
  timer_waits : List Int
  /-- handlers ready to run -/
  queue : List Task
  trace : List Event
deriving DecidableEq, Repr

/-- The environment: the reactor's verdict on a descriptor and the listener. -/
structure Env where
  /-- whether `socket.assign(boost::asio::local::stream_protocol(), fd)` succeeds -/
  assign_ok : Int → Bool
  /-- the calls the listener makes from inside `on_socket_event(fd, what)` -/
  on_socket_event : Int → Nat → List Call
  /-- the calls the listener makes from inside `on_timer()` -/
  on_timer : List Call

/-- A fresh event loop. -/
def State.init : State := ⟨[], [], [], [], [], []⟩

/-- A listener that never calls back, over a reactor that accepts every descriptor. -/
def Env.passive : Env := ⟨fun _ => true, fun _ _ => [], []⟩

/-- A listener that never calls back, over a reactor that rejects negative descriptors. -/
def Env.strict : Env := ⟨fun fd => decide (0 ≤ fd), fun _ _ => [], []⟩

/-! ## Reference counting -/

/-- The number of `shared_ptr`s on the heap that own `id`. -/
def use_count (s : State) (id : Nat) : Nat :=
  s.cells.count (some id)

/-- The call `weak_info.lock()`: the record, if a strong reference still owns it. -/
def lock (s : State) (weak_info : Nat) : Option boost_socket_info :=
  if some weak_info ∈ s.cells then s.infos[weak_info]? else none

/-- The weak references held against `id`: the handlers of its pending waits. -/
def weak_count (s : State) (id : Nat) : Nat :=
  (s.waits.filter fun w => w.weak_info = id).length

/-- The waits pending against `id` for direction `what`. -/
def pending (s : State) (id : Nat) (what : Nat) : Nat :=
  (s.waits.filter fun w => w.weak_info = id ∧ w.what = what).length

/-! ## The operations -/

/-- The call `info->socket.async_read_some(null_buffers(), bind(on_event, fd, weak_info, socket_read))`. -/
def async_read_some (fd : Int) (info : Nat) (s : State) : State :=
  { s with waits := s.waits ++ [⟨fd, info, socket_read⟩],
           trace := s.trace ++ [Event.async_read_some fd info] }

/-- The call `info->socket.async_write_some(null_buffers(), bind(on_event, fd, weak_info, socket_write))`. -/
def async_write_some (fd : Int) (info : Nat) (s : State) : State :=
  { s with waits := s.waits ++ [⟨fd, info, socket_write⟩],
           trace := s.trace ++ [Event.async_write_some fd info] }

/-- The branch `if (!data)` of `socket_request`: `make_pointer` constructs the
record (the constructor's `socket.assign` may throw), puts the owning pointer
in a new cell and tells the listener the handle. -/
def make_pointer (env : Env) (fd : Int) (what : Nat) (s : State) :
    Except Failure (Nat × State) :=
  if env.assign_ok fd then
    .ok (s.cells.length,
      { s with infos := s.infos ++ [⟨fd, what⟩],
               cells := s.cells ++ [some s.infos.length],
               trace := s.trace ++ [Event.set_socket_data fd s.cells.length] })
  else .error Failure.system_error

/-- The method `boost_event_loop::socket_request(fd, what, data)`. -/
def socket_request (env : Env) (fd : Int) (what : Nat) (data : Option Nat) (s : State) :
    Except Failure (Int × State) :=
  if what = poll_remove then
    match data with
    | none => .error Failure.undefined_behaviour
    | some h =>
      match s.cells[h]? with
      | some (some _) => .ok (0, { s with cells := s.cells.set h none })
      | _ => .error Failure.undefined_behaviour
  else
    match (match data with
           | none => make_pointer env fd what s
           | some h => .ok (h, s)) with
    | .error e => .error e
    | .ok (h, s1) =>
      match s1.cells[h]? with
      | some (some id) =>
        match s1.infos[id]? with
        | some info =>
          let s2 := { s1 with infos := s1.infos.set id { info with what := what } }
          let s3 := if what = poll_in then async_read_some fd id s2 else s2
          let s4 := if what = poll_out then async_write_some fd id s3 else s3
          .ok (0, s4)
        | none => .error Failure.undefined_behaviour
      | _ => .error Failure.undefined_behaviour

/-- The call `m_timer.cancel()`: every wait pending on the timer completes with
`operation_aborted`; its handler is queued, not run. -/
def timer_cancel (s : State) : State :=
  { s with queue := s.queue ++ s.timer_waits.map (fun _ => Task.on_timer true),
           timer_waits := [] }

/-- The method `boost_event_loop::timer_request(timeout_ms)`. -/
def timer_request (timeout_ms : Int) (s : State) : Int × State :=
  let s1 := timer_cancel s
  if timeout_ms = 0 then
    (0, { s1 with queue := s1.queue ++ [Task.on_timer false],
                  trace := s1.trace ++ [Event.post_on_timer] })
  else
    (0, { s1 with timer_waits := s1.timer_waits ++ [timeout_ms],
                  trace := s1.trace ++ [Event.async_wait timeout_ms] })

/-- The method `boost_event_loop::post(func)`. -/
def post (func : List Call) (s : State) : State :=
  { s with queue := s.queue ++ [Task.func func], trace := s.trace ++ [Event.post_func] }

/-- One call of the listener back into the event loop. -/
def call (env : Env) (c : Call) (s : State) : Except Failure State :=
  match c with
  | .socket_request fd what data =>
    match socket_request env fd what data s with
    | .ok (_, s1) => .ok s1
    | .error e => .error e
  | .timer_request timeout_ms => .ok (timer_request timeout_ms s).2

/-- The calls a callback makes, in order, on the stack of the callback. -/
def exec_calls (env : Env) : List Call → State → Except Failure State
  | [], s => .ok s
  | c :: cs, s =>
    match call env c s with
    | .ok s1 => exec_calls env cs s1
    | .error e => .error e

/-- The method `boost_event_loop::on_event(fd, weak_info, what, error)`. The
error code is only logged. The local `info` keeps the record alive until
`on_event` returns, also when the callback deletes the owning cell; nothing
locks a weak reference in between and `on_event` does not use `info` after the
callback, so the local needs no count of its own. -/
def on_event (env : Env) (fd : Int) (weak_info : Nat) (what : Nat) (_error : Bool)
    (s : State) : Except Failure State :=
  match lock s weak_info with
  | none => .ok s
  | some info =>
    let s1 := if what = socket_read ∧ info.what &&& poll_in ≠ 0
      then async_read_some fd weak_info s else s
    let s2 := if what = socket_write ∧ info.what &&& poll_out ≠ 0
      then async_write_some fd weak_info s1 else s1
    exec_calls env (env.on_socket_event fd what)
      { s2 with trace := s2.trace ++ [Event.on_socket_event fd what] }

/-! ## The reactor's moves -/

/-- The reactor completes the pending wait `w` (with or without an error code)
and runs its handler. A wait that is not pending cannot complete. -/
def fire (env : Env) (w : Wait) (error : Bool) (s : State) : Except Failure State :=
  if w ∈ s.waits then
    on_event env w.fd w.weak_info w.what error { s with waits := s.waits.erase w }
  else .ok s

/-- A sequence of completions, in the order given. -/
def fire_seq (env : Env) : List (Wait × Bool) → State → Except Failure State
  | [], s => .ok s
  | f :: fs, s =>
    match fire env f.1 f.2 s with
    | .ok s1 => fire_seq env fs s1
    | .error e => .error e

/-- The timer's deadline passes: the waits pending on it complete without error. -/
def expire (s : State) : State :=
  { s with queue := s.queue ++ s.timer_waits.map (fun _ => Task.on_timer false),
           timer_waits := [] }

/-- The run loop runs the handler at the head of the run queue. -/
def run_one (env : Env) (s : State) : Except Failure State :=
  match s.queue with
  | [] => .ok s
  | t :: q =>
    match t with
    | .on_timer _ =>
      exec_calls env env.on_timer { s with queue := q, trace := s.trace ++ [Event.on_timer] }
    | .func calls => exec_calls env calls { s with queue := q }

/-- The run loop drains the run queue, running at most `fuel` handlers. -/
def poll (env : Env) : Nat → State → Except Failure State
  | 0, s => .ok s
  | fuel + 1, s =>
    match s.queue with
    | [] => .ok s
    | _ :: _ =>
      match run_one env s with
      | .ok s1 => poll env fuel s1
      | .error e => .error e

/-- How often the listener's `on_timer()` was called. -/
def on_timer_calls (s : State) : Nat :=
  s.trace.count Event.on_timer

/-- How often the listener's `on_socket_event(fd, what)` was called. -/
def socket_event_calls (s : State) (fd : Int) (what : Nat) : Nat :=
  s.trace.count (Event.on_socket_event fd what)

/-- The listener callbacks in a trace, without the operations started. -/
def listener_calls (tr : List Event) : List Event :=
  tr.filter fun e =>
    match e with
    | .set_socket_data _ _ => true
    | .on_socket_event _ _ => true
    | .on_timer => true
    | _ => false

/-! ## Reachable states -/

/-- One move of the engine (a request) or of the reactor (a completion). -/
inductive Op where
  | socket_request (fd : Int) (what : Nat) (data : Option Nat)
  | timer_request (timeout_ms : Int)
  | post (func : List Call)
  | fire (w : Wait) (error : Bool)
  | expire
  | run_one
deriving DecidableEq, Repr

/-- The effect of one move. -/
def step (env : Env) (op : Op) (s : State) : Except Failure State :=
  match op with
  | .socket_request fd what data => call env (Call.socket_request fd what data) s
  | .timer_request timeout_ms => .ok (timer_request timeout_ms s).2
  | .post func => .ok (post func s)
  | .fire w error => fire env w error s
  | .expire => .ok (expire s)
  | .run_one => run_one env s

/-- The effect of a sequence of moves; it stops at the first failure. -/
def run (env : Env) : List Op → State → Except Failure State
  | [], s => .ok s
  | op :: ops, s =>
    match step env op s with
    | .ok s1 => run env ops s1
    | .error e => .error e

/-- The heap is well formed: handles and weak references point at records that
were made, and no record is owned by two cells. -/
structure Inv (s : State) : Prop where
  cells_lt : ∀ id, some id ∈ s.cells → id < s.infos.length
  waits_lt : ∀ w ∈ s.waits, w.weak_info < s.infos.length
  owner : ∀ id, s.cells.count (some id) ≤ 1

/-! ## Auxiliary notions for the proofs -/

/-- The state in which `on_event` calls the listener: the waits started by its
two re-arming branches, for a record whose condition is `cond`. -/
def rearm (fd : Int) (id what cond : Nat) (s : State) : State :=
  let s1 := if what = socket_read ∧ cond &&& poll_in ≠ 0
    then async_read_some fd id s else s
  if what = socket_write ∧ cond &&& poll_out ≠ 0
    then async_write_some fd id s1 else s1

/-- The state of a record whose condition has no read bit, as far as the
completions bound to it are concerned. -/
structure Narrowed (env : Env) (fd : Int) (id : Nat) (t : State) : Prop where
  live : ∃ info, lock t id = some info ∧ info.what &&& poll_in = 0
  bound : ∀ w ∈ t.waits, w.weak_info = id → w.fd = fd
  quiet : ∀ what, env.on_socket_event fd what = []

/-! ## Lemmas on cells -/

theorem count_set_none_le (l : List (Option Nat)) (h id : Nat) :
    (l.set h none).count (some id) ≤ l.count (some id) := by
  induction l generalizing h with
  | nil => simp
  | cons c cs ih =>
    cases h with
    | zero =>
      simp only [List.set_cons_zero, List.count_cons]
      simp
    | succ n =>
      simp only [List.set_cons_succ, List.count_cons]
      exact Nat.add_le_add_right (ih n) _

theorem not_mem_set_none (l : List (Option Nat)) (h id : Nat)
    (hget : l[h]? = some (some id)) (hcount : l.count (some id) ≤ 1) :
    some id ∉ l.set h none := by
  induction l generalizing h with
  | nil => simp
  | cons c cs ih =>
    cases h with
    | zero =>
      simp only [List.getElem?_cons_zero, Option.some.injEq] at hget
      subst hget
      simp only [List.count_cons_self] at hcount
      have h0 : cs.count (some id) = 0 := by omega
      simp only [List.set_cons_zero, List.mem_cons, not_or]
      exact ⟨by simp, List.count_eq_zero.mp h0⟩
    | succ n =>
      simp only [List.getElem?_cons_succ] at hget
      have hmem : some id ∈ cs := List.getElem?_mem hget
      have hpos : 0 < cs.count (some id) := List.count_pos_iff.mpr hmem
      simp only [List.count_cons] at hcount
      have hc : c ≠ some id := by
        intro hc
        subst hc
        simp at hcount
        omega
      simp only [List.set_cons_succ, List.mem_cons, not_or]
      refine ⟨fun e => hc e.symm, ih n hget ?_⟩
      omega

theorem mem_of_mem_set_none (l : List (Option Nat)) (h id : Nat)
    (hmem : some id ∈ l.set h none) : some id ∈ l := by
  rcases List.mem_or_eq_of_mem_set hmem with h1 | h1
  · exact h1
  · cases h1

/-! ## The heap invariant is kept by every move -/

theorem inv_init : Inv State.init :=
  ⟨by simp [State.init], by simp [State.init], by simp [State.init]⟩

theorem Inv.of_eq {s t : State} (hs : Inv s) (hc : t.cells = s.cells)
    (hw : t.waits = s.waits) (hi : t.infos.length = s.infos.length) : Inv t :=
  ⟨by rw [hc, hi]; exact hs.cells_lt, by rw [hw, hi]; exact hs.waits_lt,
   by rw [hc]; exact hs.owner⟩

theorem inv_async_read_some {s : State} (fd : Int) (id : Nat) (hs : Inv s)
    (hid : id < s.infos.length) : Inv (async_read_some fd id s) := by
  refine ⟨hs.cells_lt, ?_, hs.owner⟩
  intro w hw
  simp only [async_read_some, List.mem_append, List.mem_singleton] at hw
  rcases hw with hw | hw
  · exact hs.waits_lt w hw
  · subst hw; exact hid

theorem inv_async_write_some {s : State} (fd : Int) (id : Nat) (hs : Inv s)
    (hid : id < s.infos.length) : Inv (async_write_some fd id s) := by
  refine ⟨hs.cells_lt, ?_, hs.owner⟩
  intro w hw
  simp only [async_write_some, List.mem_append, List.mem_singleton] at hw
  rcases hw with hw | hw
  · exact hs.waits_lt w hw
  · subst hw; exact hid

theorem inv_make_pointer {env : Env} {fd : Int} {what h : Nat} {s s1 : State}
    (hm : make_pointer env fd what s = .ok (h, s1)) (hs : Inv s) : Inv s1 := by
  unfold make_pointer at hm
  split at hm
  · simp only [Except.ok.injEq, Prod.mk.injEq] at hm
    obtain ⟨-, rfl⟩ := hm
    refine ⟨?_, ?_, ?_⟩
    · intro id hid
      simp only [List.mem_append, List.mem_singleton, Option.some.injEq,
        List.length_append, List.length_singleton] at hid ⊢
      rcases hid with hid | hid
      · exact Nat.lt_succ_of_lt (hs.cells_lt id hid)
      · omega
    · intro w hw
      simp only [List.length_append, List.length_singleton]
      exact Nat.lt_succ_of_lt (hs.waits_lt w hw)
    · intro id
      simp only [List.count_append, List.count_singleton, beq_iff_eq, Option.some.injEq]
      split
      · rename_i e
        have h0 : s.cells.count (some id) = 0 := by
          rw [List.count_eq_zero]
          intro hmem
          have := hs.cells_lt id hmem
          omega
        omega
      · have := hs.owner id
        omega
  · cases hm

theorem inv_set_what {s : State} (id : Nat) (info : boost_socket_info) (hs : Inv s) :
    Inv { s with infos := s.infos.set id info } :=
  hs.of_eq rfl rfl (by simp)

theorem inv_socket_request {env : Env} {fd : Int} {what : Nat} {data : Option Nat}
    {s s1 : State} {r : Int}
    (hr : socket_request env fd what data s = .ok (r, s1)) (hs : Inv s) : Inv s1 := by
  unfold socket_request at hr
  split at hr
  · split at hr
    · cases hr
    · split at hr
      · simp only [Except.ok.injEq, Prod.mk.injEq] at hr
        obtain ⟨-, rfl⟩ := hr
        refine ⟨?_, hs.waits_lt, ?_⟩
        · intro id hid
          exact hs.cells_lt id (mem_of_mem_set_none _ _ _ hid)
        · intro id
          exact le_trans (count_set_none_le _ _ _) (hs.owner id)
      · cases hr
  · split at hr
    · cases hr
    · rename_i h s0 hdata
      have hs0 : Inv s0 := by
        split at hdata
        · exact inv_make_pointer hdata hs
        · simp only [Except.ok.injEq, Prod.mk.injEq] at hdata
          obtain ⟨-, rfl⟩ := hdata
          exact hs
      split at hr
      · rename_i id hcell
        split at hr
        · rename_i info hinfo
          simp only [Except.ok.injEq, Prod.mk.injEq] at hr
          obtain ⟨-, rfl⟩ := hr
          have hid : id < s0.infos.length := hs0.cells_lt id (List.getElem?_mem hcell)
          have h2 := inv_set_what id { info with what := what } hs0
          have hid2 : id < ({ s0 with infos := s0.infos.set id { info with what := what } } :
              State).infos.length := by simpa using hid
          split
          · split
            · exact inv_async_write_some fd id (inv_async_read_some fd id h2 hid2) hid2
            · exact inv_async_write_some fd id h2 hid2
          · split
            · exact inv_async_read_some fd id h2 hid2
            · exact h2
        · cases hr
      · cases hr

theorem inv_timer_request {s : State} (timeout_ms : Int) (hs : Inv s) :
    Inv (timer_request timeout_ms s).2 := by
  unfold timer_request timer_cancel
  split <;> exact hs.of_eq rfl rfl rfl

theorem inv_call {env : Env} {c : Call} {s s1 : State}
    (hc : call env c s = .ok s1) (hs : Inv s) : Inv s1 := by
  unfold call at hc
  split at hc
  · split at hc
    · rename_i hr
      simp only [Except.ok.injEq] at hc
      subst hc
      exact inv_socket_request hr hs
    · cases hc
  · simp only [Except.ok.injEq] at hc
    subst hc
    exact inv_timer_request _ hs

theorem inv_exec_calls {env : Env} {cs : List Call} {s s1 : State}
    (hc : exec_calls env cs s = .ok s1) (hs : Inv s) : Inv s1 := by
  induction cs generalizing s with
  | nil =>
    simp only [exec_calls, Except.ok.injEq] at hc
    subst hc
    exact hs
  | cons c cs ih =>
    simp only [exec_calls] at hc
    split at hc
    · rename_i s2 h2
      exact ih hc (inv_call h2 hs)
    · cases hc

theorem lock_lt {s : State} {id : Nat} {info : boost_socket_info}
    (hl : lock s id = some info) : id < s.infos.length := by
  unfold lock at hl
  split at hl
  · exact (List.getElem?_eq_some.mp hl).1
  · cases hl

theorem inv_on_event {env : Env} {fd : Int} {id what : Nat} {error : Bool} {s s1 : State}
    (he : on_event env fd id what error s = .ok s1) (hs : Inv s) : Inv s1 := by
  unfold on_event at he
  split at he
  · simp only [Except.ok.injEq] at he
    subst he
    exact hs
  · rename_i info hl
    have hid := lock_lt hl
    refine inv_exec_calls he (Inv.of_eq (s := (if what = socket_write ∧ info.what &&& poll_out ≠ 0
      then async_write_some fd id (if what = socket_read ∧ info.what &&& poll_in ≠ 0
        then async_read_some fd id s else s)
      else (if what = socket_read ∧ info.what &&& poll_in ≠ 0
        then async_read_some fd id s else s))) ?_ rfl rfl rfl)
    have h1 : Inv (if what = socket_read ∧ info.what &&& poll_in ≠ 0
        then async_read_some fd id s else s) := by
      split
      · exact inv_async_read_some fd id hs hid
      · exact hs
    have hid1 : id < (if what = socket_read ∧ info.what &&& poll_in ≠ 0
        then async_read_some fd id s else s).infos.length := by
      split
      · exact hid
      · exact hid
    split
    · exact inv_async_write_some fd id h1 hid1
    · exact h1

theorem inv_fire {env : Env} {w : Wait} {error : Bool} {s s1 : State}
    (hf : fire env w error s = .ok s1) (hs : Inv s) : Inv s1 := by
  unfold fire at hf
  split at hf
  · refine inv_on_event hf ⟨hs.cells_lt, ?_, hs.owner⟩
    intro x hx
    exact hs.waits_lt x (List.mem_of_mem_erase hx)
  · simp only [Except.ok.injEq] at hf
    subst hf
    exact hs

theorem inv_run_one {env : Env} {s s1 : State}
    (hr : run_one env s = .ok s1) (hs : Inv s) : Inv s1 := by
  unfold run_one at hr
  split at hr
  · simp only [Except.ok.injEq] at hr
    subst hr
    exact hs
  · split at hr
    · exact inv_exec_calls hr (hs.of_eq rfl rfl rfl)
    · exact inv_exec_calls hr (hs.of_eq rfl rfl rfl)

theorem inv_step {env : Env} {op : Op} {s s1 : State}
    (hr : step env op s = .ok s1) (hs : Inv s) : Inv s1 := by
  cases op with
  | socket_request fd what data =>
    simp only [step] at hr
    exact inv_call hr hs
  | timer_request t =>
    simp only [step, Except.ok.injEq] at hr
    subst hr
    exact inv_timer_request t hs
  | post func =>
    simp only [step, Except.ok.injEq] at hr
    subst hr
    exact hs.of_eq rfl rfl rfl
  | fire w e =>
    simp only [step] at hr
    exact inv_fire hr hs
  | expire =>
    simp only [step, Except.ok.injEq] at hr
    subst hr
    exact hs.of_eq rfl rfl rfl
  | run_one =>
    simp only [step] at hr
    exact inv_run_one hr hs

theorem inv_run {env : Env} {ops : List Op} {s s1 : State}
    (hr : run env ops s = .ok s1) (hs : Inv s) : Inv s1 := by
  induction ops generalizing s with
  | nil =>
    simp only [run, Except.ok.injEq] at hr
    subst hr
    exact hs
  | cons op ops ih =>
    simp only [run] at hr
    split at hr
    · rename_i s2 h2
      exact ih hr (inv_step h2 hs)
    · cases hr

/-! ## Completions against a released record -/

theorem socket_request_remove (env : Env) (fd : Int) (h id : Nat) (s : State)
    (hcell : s.cells[h]? = some (some id)) :
    socket_request env fd poll_remove (some h) s
      = .ok (0, { s with cells := s.cells.set h none }) := by
  simp [socket_request, hcell]

theorem on_event_dead (env : Env) (fd : Int) (id what : Nat) (error : Bool) (s : State)
    (hdead : some id ∉ s.cells) : on_event env fd id what error s = .ok s := by
  simp [on_event, lock, hdead]

theorem fire_dead (env : Env) (w : Wait) (error : Bool) (s : State)
    (hdead : some w.weak_info ∉ s.cells) :
    fire env w error s = .ok { s with waits := s.waits.erase w } := by
  unfold fire
  split
  · exact on_event_dead env _ _ _ _ _ hdead
  · rename_i hw
    rw [List.erase_of_not_mem hw]

theorem fire_seq_dead (env : Env) (fs : List (Wait × Bool)) (s : State)
    (hdead : ∀ f ∈ fs, some f.1.weak_info ∉ s.cells) :
    fire_seq env fs s
      = .ok { s with waits := fs.foldl (fun ws f => ws.erase f.1) s.waits } := by
  induction fs generalizing s with
  | nil => rfl
  | cons f fs ih =>
    have h1 := fire_dead env f.1 f.2 s (hdead f (List.mem_cons_self _ _))
    simp only [fire_seq, h1, List.foldl_cons]
    exact ih _ (fun g hg => hdead g (List.mem_cons_of_mem _ hg))

/-! ## Completions against a live record -/

theorem on_event_live (env : Env) (fd : Int) (id what : Nat) (error : Bool) (s : State)
    (info : boost_socket_info) (hl : lock s id = some info) :
    on_event env fd id what error s
      = exec_calls env (env.on_socket_event fd what)
          { rearm fd id what info.what s with
            trace := (rearm fd id what info.what s).trace ++ [Event.on_socket_event fd what] } := by
  simp only [on_event, hl, rearm]

theorem rearm_cells (fd : Int) (id what cond : Nat) (s : State) :
    (rearm fd id what cond s).cells = s.cells := by
  unfold rearm async_read_some async_write_some
  split <;> split <;> rfl

theorem rearm_infos (fd : Int) (id what cond : Nat) (s : State) :
    (rearm fd id what cond s).infos = s.infos := by
  unfold rearm async_read_some async_write_some
  split <;> split <;> rfl

theorem rearm_listener_calls (fd : Int) (id what cond : Nat) (s : State) :
    listener_calls (rearm fd id what cond s).trace = listener_calls s.trace := by
  unfold rearm async_read_some async_write_some
  split <;> split <;> simp [listener_calls, List.filter_append]

theorem rearm_socket_event_calls (fd : Int) (id what cond : Nat) (s : State)
    (fd1 : Int) (what1 : Nat) :
    (rearm fd id what cond s).trace.count (Event.on_socket_event fd1 what1)
      = s.trace.count (Event.on_socket_event fd1 what1) := by
  unfold rearm async_read_some async_write_some
  split <;> split <;> simp [List.count_append]

theorem rearm_read (fd : Int) (id cond : Nat) (s : State) (hc : cond &&& poll_in ≠ 0) :
    rearm fd id socket_read cond s = async_read_some fd id s := by
  unfold rearm
  rw [if_neg (fun h => absurd h.1 (by decide)), if_pos ⟨rfl, hc⟩]

theorem rearm_write (fd : Int) (id cond : Nat) (s : State) (hc : cond &&& poll_out ≠ 0) :
    rearm fd id socket_write cond s = async_write_some fd id s := by
  unfold rearm
  rw [if_pos ⟨rfl, hc⟩, if_neg (fun h => absurd h.1 (by decide))]

theorem rearm_read_off (fd : Int) (id cond : Nat) (s : State) (hc : cond &&& poll_in = 0) :
    rearm fd id socket_read cond s = s := by
  unfold rearm
  rw [if_neg (fun h => absurd h.1 (by decide)), if_neg (fun h => h.2 hc)]

theorem rearm_other (fd : Int) (id what cond : Nat) (s : State)
    (hr : what ≠ socket_read) (hw : what ≠ socket_write) :
    rearm fd id what cond s = s := by
  unfold rearm
  rw [if_neg (fun h => hw h.1), if_neg (fun h => hr h.1)]

theorem lock_congr {s t : State} (hc : t.cells = s.cells) (hi : t.infos = s.infos)
    (id : Nat) : lock t id = lock s id := by
  simp only [lock, hc, hi]

theorem filter_length_erase_pos {α : Type} [DecidableEq α] (p : α → Bool) (l : List α)
    (a : α) (ha : a ∈ l) (hp : p a = true) :
    ((l.erase a).filter p).length + 1 = (l.filter p).length := by
  have h1 := ((List.perm_cons_erase ha).filter p).length_eq
  simp only [List.filter_cons, hp, if_true, List.length_cons] at h1
  omega

theorem filter_length_erase_neg {α : Type} [DecidableEq α] (p : α → Bool) (l : List α)
    (a : α) (hp : p a = false) :
    ((l.erase a).filter p).length = (l.filter p).length := by
  by_cases ha : a ∈ l
  · have h1 := ((List.perm_cons_erase ha).filter p).length_eq
    simp only [List.filter_cons, hp] at h1
    simpa using h1.symm
  · rw [List.erase_of_not_mem ha]

theorem pending_erase_append (s : State) (w : Wait) (hw : w ∈ s.waits) (tr : List Event) :
    pending { s with waits := s.waits.erase w ++ [w], trace := tr } w.weak_info w.what
      = pending s w.weak_info w.what := by
  have h1 := filter_length_erase_pos
    (fun x : Wait => decide (x.weak_info = w.weak_info ∧ x.what = w.what)) s.waits w hw (by simp)
  simp only [pending, List.filter_append, List.length_append]
  simp only [List.filter_cons, List.filter_nil]
  simp only [and_self, decide_True, if_true, List.length_singleton]
  exact h1

/-- One completion of the wait `⟨fd, id, dir⟩` on a live record whose condition
is exactly `dir`, with a listener that does not call back. -/
theorem fire_rearms (env : Env) (s : State) (fd : Int) (id dir cond : Nat)
    (info : boost_socket_info) (error : Bool)
    (hdir : (dir = socket_read ∧ cond = poll_in) ∨ (dir = socket_write ∧ cond = poll_out))
    (hlive : lock s id = some info) (hcond : info.what = cond)
    (hw : (⟨fd, id, dir⟩ : Wait) ∈ s.waits)
    (hlistener : env.on_socket_event fd dir = []) :
    fire env ⟨fd, id, dir⟩ error s = .ok
      { s with
        waits := s.waits.erase ⟨fd, id, dir⟩ ++ [⟨fd, id, dir⟩],
        trace := s.trace ++
          [if dir = socket_read then Event.async_read_some fd id
            else Event.async_write_some fd id,
           Event.on_socket_event fd dir] } := by
  have hl : lock { s with waits := s.waits.erase ⟨fd, id, dir⟩ } id = some info := by
    rw [← hlive]
    exact lock_congr rfl rfl id
  simp only [fire, hw, if_true]
  rw [on_event_live env fd id dir error _ info hl, hlistener, hcond]
  rcases hdir with ⟨rfl, rfl⟩ | ⟨rfl, rfl⟩
  · rw [rearm_read fd id poll_in _ (by decide)]
    simp [exec_calls, async_read_some]
  · rw [rearm_write fd id poll_out _ (by decide)]
    simp [exec_calls, async_write_some]

/-! ## Requests, case by case -/

theorem socket_request_new_read (env : Env) (s : State) (fd : Int)
    (hassign : env.assign_ok fd = true) :
    socket_request env fd poll_in none s = .ok (0,
      { s with infos := s.infos ++ [⟨fd, poll_in⟩],
               cells := s.cells ++ [some s.infos.length],
               waits := s.waits ++ [⟨fd, s.infos.length, socket_read⟩],
               trace := s.trace ++ [Event.set_socket_data fd s.cells.length,
                 Event.async_read_some fd s.infos.length] }) := by
  simp [socket_request, make_pointer, hassign, async_read_some]

theorem socket_request_read (env : Env) (s : State) (fd : Int) (h id : Nat)
    (info : boost_socket_info)
    (hcell : s.cells[h]? = some (some id)) (hinfo : s.infos[id]? = some info) :
    socket_request env fd poll_in (some h) s = .ok (0,
      { s with infos := s.infos.set id ⟨info.socket, poll_in⟩,
               waits := s.waits ++ [⟨fd, id, socket_read⟩],
               trace := s.trace ++ [Event.async_read_some fd id] }) := by
  simp [socket_request, hcell, hinfo, async_read_some]

theorem socket_request_write (env : Env) (s : State) (fd : Int) (h id : Nat)
    (info : boost_socket_info)
    (hcell : s.cells[h]? = some (some id)) (hinfo : s.infos[id]? = some info) :
    socket_request env fd poll_out (some h) s = .ok (0,
      { s with infos := s.infos.set id ⟨info.socket, poll_out⟩,
               waits := s.waits ++ [⟨fd, id, socket_write⟩],
               trace := s.trace ++ [Event.async_write_some fd id] }) := by
  simp [socket_request, hcell, hinfo, async_write_some]

theorem socket_request_new_read_fields (env : Env) (s : State) (fd : Int)
    (hassign : env.assign_ok fd = true) :
    ∃ s1, socket_request env fd poll_in none s = .ok (0, s1) ∧
      s1.infos = s.infos ++ [⟨fd, poll_in⟩] ∧
      s1.cells = s.cells ++ [some s.infos.length] ∧
      s1.waits = s.waits ++ [⟨fd, s.infos.length, socket_read⟩] ∧
      s1.trace = s.trace ++ [Event.set_socket_data fd s.cells.length,
        Event.async_read_some fd s.infos.length] :=
  ⟨_, socket_request_new_read env s fd hassign, rfl, rfl, rfl, rfl⟩

theorem socket_request_read_fields (env : Env) (s : State) (fd : Int) (h id : Nat)
    (info : boost_socket_info)
    (hcell : s.cells[h]? = some (some id)) (hinfo : s.infos[id]? = some info) :
    ∃ s1, socket_request env fd poll_in (some h) s = .ok (0, s1) ∧
      s1.infos = s.infos.set id ⟨info.socket, poll_in⟩ ∧
      s1.cells = s.cells ∧
      s1.waits = s.waits ++ [⟨fd, id, socket_read⟩] ∧
      s1.trace = s.trace ++ [Event.async_read_some fd id] :=
  ⟨_, socket_request_read env s fd h id info hcell hinfo, rfl, rfl, rfl, rfl⟩

theorem socket_request_write_fields (env : Env) (s : State) (fd : Int) (h id : Nat)
    (info : boost_socket_info)
    (hcell : s.cells[h]? = some (some id)) (hinfo : s.infos[id]? = some info) :
    ∃ s1, socket_request env fd poll_out (some h) s = .ok (0, s1) ∧
      s1.infos = s.infos.set id ⟨info.socket, poll_out⟩ ∧
      s1.cells = s.cells ∧
      s1.waits = s.waits ++ [⟨fd, id, socket_write⟩] ∧
      s1.trace = s.trace ++ [Event.async_write_some fd id] :=
  ⟨_, socket_request_write env s fd h id info hcell hinfo, rfl, rfl, rfl, rfl⟩

theorem socket_request_waits_of_ne (env : Env) (fd : Int) (what : Nat) (data : Option Nat)
    (s s1 : State) (r : Int) (hin : what ≠ poll_in) (hout : what ≠ poll_out)
    (hr : socket_request env fd what data s = .ok (r, s1)) : s1.waits = s.waits := by
  unfold socket_request at hr
  split at hr
  · split at hr
    · cases hr
    · split at hr
      · simp only [Except.ok.injEq, Prod.mk.injEq] at hr
        obtain ⟨-, rfl⟩ := hr
        rfl
      · cases hr
  · split at hr
    · cases hr
    · rename_i h s0 hm
      have hw0 : s0.waits = s.waits := by
        split at hm
        · unfold make_pointer at hm
          split at hm
          · simp only [Except.ok.injEq, Prod.mk.injEq] at hm
            obtain ⟨-, rfl⟩ := hm
            rfl
          · cases hm
        · simp only [Except.ok.injEq, Prod.mk.injEq] at hm
          obtain ⟨-, rfl⟩ := hm
          rfl
      split at hr
      · split at hr
        · simp only [Except.ok.injEq, Prod.mk.injEq] at hr
          obtain ⟨-, rfl⟩ := hr
          simp only [if_neg hin, if_neg hout]
          exact hw0
        · cases hr
      · cases hr

/-! ## Completions after the read direction was dropped -/

theorem rearm_waits_not_read (fd : Int) (id what cond : Nat) (s : State)
    (hr : what ≠ socket_read) :
    ∃ l : List Wait, (rearm fd id what cond s).waits = s.waits ++ l ∧
      ∀ w ∈ l, w = ⟨fd, id, socket_write⟩ := by
  unfold rearm
  simp only [if_neg (fun h : what = socket_read ∧ cond &&& poll_in ≠ 0 => hr h.1)]
  split
  · exact ⟨[⟨fd, id, socket_write⟩], rfl, by simp⟩
  · exact ⟨[], by simp, by simp⟩

theorem narrowed_fire (env : Env) (fd : Int) (id : Nat) (t : State) (w : Wait) (error : Bool)
    (hn : Narrowed env fd id t) (hw : w.weak_info = id) :
    ∃ t1, fire env w error t = .ok t1 ∧ Narrowed env fd id t1 ∧
      socket_event_calls t1 fd socket_read
        = socket_event_calls t fd socket_read
          + (if w ∈ t.waits ∧ w.what = socket_read then 1 else 0) ∧
      pending t1 id socket_read + (if w ∈ t.waits ∧ w.what = socket_read then 1 else 0)
        = pending t id socket_read := by
  by_cases hmem : w ∈ t.waits
  · obtain ⟨info, hlock, hcond⟩ := hn.live
    have hfd : w.fd = fd := hn.bound w hmem hw
    obtain ⟨wfd, wid, what⟩ := w
    simp only at hw hfd
    subst hw hfd
    have hl : lock { t with waits := t.waits.erase ⟨wfd, wid, what⟩ } wid = some info := by
      rw [← hlock]
      exact lock_congr rfl rfl wid
    have hfire : fire env ⟨wfd, wid, what⟩ error t = .ok
        { rearm wfd wid what info.what { t with waits := t.waits.erase ⟨wfd, wid, what⟩ } with
          trace := (rearm wfd wid what info.what
            { t with waits := t.waits.erase ⟨wfd, wid, what⟩ }).trace
              ++ [Event.on_socket_event wfd what] } := by
      simp only [fire, hmem, if_true]
      rw [on_event_live env wfd wid what error _ info hl, hn.quiet what]
      rfl
    refine ⟨_, hfire, ?_, ?_, ?_⟩
    · refine ⟨⟨info, ?_, hcond⟩, ?_, hn.quiet⟩
      · rw [← hlock]
        exact lock_congr (rearm_cells _ _ _ _ _) (rearm_infos _ _ _ _ _) wid
      · intro x hx hxid
        by_cases hr : what = socket_read
        · subst hr
          rw [rearm_read_off wfd wid info.what _ hcond] at hx
          exact hn.bound x (List.mem_of_mem_erase hx) hxid
        · obtain ⟨l, hl1, hl2⟩ := rearm_waits_not_read wfd wid what info.what
            { t with waits := t.waits.erase ⟨wfd, wid, what⟩ } hr
          simp only at hx
          rw [hl1, List.mem_append] at hx
          rcases hx with hx | hx
          · exact hn.bound x (List.mem_of_mem_erase hx) hxid
          · rw [hl2 x hx]
    · simp only [socket_event_calls, List.count_append, rearm_socket_event_calls]
      by_cases hr : what = socket_read
      · subst hr
        simp [hmem]
      · have hne : Event.on_socket_event wfd what ≠ Event.on_socket_event wfd socket_read := by
          intro e
          cases e
          exact hr rfl
        simp [hr, List.count_singleton, hne]
    · by_cases hr : what = socket_read
      · subst hr
        simp only [hmem, and_self, if_true]
        rw [rearm_read_off wfd wid info.what _ hcond]
        exact filter_length_erase_pos
          (fun x : Wait => decide (x.weak_info = wid ∧ x.what = socket_read)) t.waits
          ⟨wfd, wid, socket_read⟩ hmem (by simp)
      · obtain ⟨l, hl1, hl2⟩ := rearm_waits_not_read wfd wid what info.what
          { t with waits := t.waits.erase ⟨wfd, wid, what⟩ } hr
        simp only [hr, and_false, if_false, Nat.add_zero, pending]
        rw [hl1, List.filter_append]
        have hnil : l.filter (fun x : Wait => decide (x.weak_info = wid ∧ x.what = socket_read))
            = [] := by
          rw [List.filter_eq_nil_iff]
          intro x hx
          rw [hl2 x hx]
          simp
        rw [hnil, List.append_nil]
        exact filter_length_erase_neg _ t.waits ⟨wfd, wid, what⟩ (by simp [hr])
  · refine ⟨t, by simp [fire, hmem], hn, by simp [hmem], by simp [hmem]⟩

theorem narrowed_fire_seq (env : Env) (fd : Int) (id : Nat) (t : State)
    (fs : List (Wait × Bool))
    (hn : Narrowed env fd id t) (hfs : ∀ f ∈ fs, f.1.weak_info = id) :
    ∃ t1, fire_seq env fs t = .ok t1 ∧
      socket_event_calls t1 fd socket_read + pending t1 id socket_read
        = socket_event_calls t fd socket_read + pending t id socket_read := by
  induction fs generalizing t with
  | nil => exact ⟨t, rfl, rfl⟩
  | cons f fs ih =>
    obtain ⟨t1, h1, hn1, hc, hp⟩ :=
      narrowed_fire env fd id t f.1 f.2 hn (hfs f (List.mem_cons_self _ _))
    obtain ⟨t2, h2, hsum⟩ := ih t1 hn1 (fun g hg => hfs g (List.mem_cons_of_mem _ hg))
    refine ⟨t2, by simp only [fire_seq, h1]; exact h2, ?_⟩
    omega

/-! ## Claims -/

/-- C1: in every reachable state, once `socket_request(fd, poll_remove, handle)`
has released the record owned by `handle`, firing any number of completions
bound to that record, with or without an error code, changes nothing but the
list of pending waits, which only loses the fired ones: the trace gains no
listener callback and no newly started wait. -/
theorem no_use_after_remove (env : Env) (ops : List Op) (s : State) (fd : Int) (h id : Nat)
    (fs : List (Wait × Bool))
    (hreach : run env ops State.init = .ok s)
    (hcell : s.cells[h]? = some (some id))
    (hfs : ∀ f ∈ fs, f.1.weak_info = id) :
    ∃ s1 s2, socket_request env fd poll_remove (some h) s = .ok (0, s1) ∧
      fire_seq env fs s1 = .ok s2 ∧
      s2.trace = s.trace ∧
      s2.waits = fs.foldl (fun ws f => ws.erase f.1) s.waits ∧
      s2.waits.Sublist s.waits ∧
      lock s2 id = none := by
  have hinv : Inv s := inv_run hreach inv_init
  have hdead : some id ∉ s.cells.set h none :=
    not_mem_set_none s.cells h id hcell (hinv.owner id)
  refine ⟨_, _, socket_request_remove env fd h id s hcell,
    fire_seq_dead env fs _ (fun f hf => by rw [hfs f hf]; exact hdead), rfl, rfl, ?_, ?_⟩
  · show (fs.foldl (fun ws f => ws.erase f.1) s.waits).Sublist s.waits
    generalize s.waits = l
    induction fs generalizing l with
    | nil => exact List.Sublist.refl _
    | cons f fs ih =>
      simp only [List.foldl_cons]
      exact (ih (fun g hg => hfs g (List.mem_cons_of_mem _ hg)) _).trans
        (List.erase_sublist _ _)
  · simp [lock, hdead]

/-- Witness for C1: a read wait is pending on descriptor 5, its record is
removed, and the wait then completes. -/
theorem no_use_after_remove_witness :
    ∃ s1 s2, socket_request Env.passive 5 poll_remove (some 0)
        ⟨[⟨5, poll_in⟩], [some 0], [⟨5, 0, socket_read⟩], [], [],
          [Event.set_socket_data 5 0, Event.async_read_some 5 0]⟩ = .ok (0, s1) ∧
      fire_seq Env.passive [(⟨5, 0, socket_read⟩, false)] s1 = .ok s2 ∧
      s2.trace = [Event.set_socket_data 5 0, Event.async_read_some 5 0] ∧
      s2.waits = [(⟨5, 0, socket_read⟩ : Wait)].erase ⟨5, 0, socket_read⟩ ∧
      s2.waits.Sublist [⟨5, 0, socket_read⟩] ∧
      lock s2 0 = none :=
  no_use_after_remove Env.passive [Op.socket_request 5 poll_in none]
    ⟨[⟨5, poll_in⟩], [some 0], [⟨5, 0, socket_read⟩], [], [],
      [Event.set_socket_data 5 0, Event.async_read_some 5 0]⟩ 5 0 0
    [(⟨5, 0, socket_read⟩, false)] rfl rfl (by decide)

/-- C7: in every state reachable under any earlier behaviour of the listener
and the reactor, when a completion of a wait on a live record fires and the
listener now answers `on_socket_event(fd, dir)` by calling
`socket_request(fd, poll_remove, handle)` for that very record, `on_event`
returns normally, the listener has been called exactly once more, the record is
released, a wait re-armed before the callback is still pending, and no later
completion bound to the record adds anything to the trace, whatever the
listener would do then. -/
theorem reentrant_remove_safe (env0 env : Env) (ops : List Op) (s : State) (fd : Int)
    (h id dir : Nat) (info : boost_socket_info) (error : Bool)
    (hreach : run env0 ops State.init = .ok s)
    (hcell : s.cells[h]? = some (some id))
    (hinfo : s.infos[id]? = some info)
    (hw : (⟨fd, id, dir⟩ : Wait) ∈ s.waits)
    (hlistener : env.on_socket_event fd dir = [Call.socket_request fd poll_remove (some h)]) :
    ∃ s1, fire env ⟨fd, id, dir⟩ error s = .ok s1 ∧
      listener_calls s1.trace = listener_calls s.trace ++ [Event.on_socket_event fd dir] ∧
      socket_event_calls s1 fd dir = socket_event_calls s fd dir + 1 ∧
      lock s1 id = none ∧
      (dir = socket_read → info.what &&& poll_in ≠ 0 →
        (⟨fd, id, socket_read⟩ : Wait) ∈ s1.waits) ∧
      (dir = socket_write → info.what &&& poll_out ≠ 0 →
        (⟨fd, id, socket_write⟩ : Wait) ∈ s1.waits) ∧
      ∀ (env1 : Env) (fs : List (Wait × Bool)), (∀ f ∈ fs, f.1.weak_info = id) →
        ∃ s2, fire_seq env1 fs s1 = .ok s2 ∧ s2.trace = s1.trace := by
  have hinv : Inv s := inv_run hreach inv_init
  have hdead : some id ∉ s.cells.set h none :=
    not_mem_set_none s.cells h id hcell (hinv.owner id)
  have hl : lock { s with waits := s.waits.erase ⟨fd, id, dir⟩ } id = some info := by
    simp [lock, List.getElem?_mem hcell, hinfo]
  have hrc := rearm_cells fd id dir info.what { s with waits := s.waits.erase ⟨fd, id, dir⟩ }
  have hfire : fire env ⟨fd, id, dir⟩ error s = .ok
      { rearm fd id dir info.what { s with waits := s.waits.erase ⟨fd, id, dir⟩ } with
        trace := (rearm fd id dir info.what
          { s with waits := s.waits.erase ⟨fd, id, dir⟩ }).trace ++ [Event.on_socket_event fd dir],
        cells := s.cells.set h none } := by
    simp only [fire, hw, if_true]
    rw [on_event_live env fd id dir error _ info hl, hlistener]
    simp only [exec_calls, call]
    rw [socket_request_remove env fd h id _ (by rw [hrc]; exact hcell)]
    simp only [hrc]
  refine ⟨_, hfire, ?_, ?_, ?_, ?_, ?_, ?_⟩
  · simp only [listener_calls, List.filter_append]
    have := rearm_listener_calls fd id dir info.what
      { s with waits := s.waits.erase ⟨fd, id, dir⟩ }
    simp only [listener_calls] at this
    rw [this]
    simp
  · simp only [socket_event_calls, List.count_append, rearm_socket_event_calls]
    simp
  · simp [lock, hdead]
  · intro hd hc
    subst hd
    rw [rearm_read fd id info.what _ hc]
    simp [async_read_some]
  · intro hd hc
    subst hd
    rw [rearm_write fd id info.what _ hc]
    simp [async_write_some]
  · intro env1 fs hfs
    exact ⟨_, fire_seq_dead env1 fs _ (fun f hf => by rw [hfs f hf]; exact hdead), rfl⟩

/-- Witness for C7: the record of descriptor 5 watches read; one read event was
already delivered to a listener that did not call back, one read wait is pending
again, and the listener now removes the record from inside the read callback. -/
theorem reentrant_remove_safe_witness :
    ∃ s1, fire ⟨fun _ => true,
          fun _ _ => [Call.socket_request 5 poll_remove (some 0)], []⟩
        ⟨5, 0, socket_read⟩ false
        ⟨[⟨5, poll_in⟩], [some 0], [⟨5, 0, socket_read⟩], [], [],
          [Event.set_socket_data 5 0, Event.async_read_some 5 0,
           Event.async_read_some 5 0, Event.on_socket_event 5 socket_read]⟩ = .ok s1 ∧
      listener_calls s1.trace
        = listener_calls [Event.set_socket_data 5 0, Event.async_read_some 5 0,
            Event.async_read_some 5 0, Event.on_socket_event 5 socket_read]
          ++ [Event.on_socket_event 5 socket_read] ∧
      socket_event_calls s1 5 socket_read
        = socket_event_calls ⟨[⟨5, poll_in⟩], [some 0], [⟨5, 0, socket_read⟩], [], [],
          [Event.set_socket_data 5 0, Event.async_read_some 5 0,
           Event.async_read_some 5 0, Event.on_socket_event 5 socket_read]⟩ 5 socket_read + 1 ∧
      lock s1 0 = none ∧
      (socket_read = socket_read → poll_in &&& poll_in ≠ 0 →
        (⟨5, 0, socket_read⟩ : Wait) ∈ s1.waits) ∧
      (socket_read = socket_write → poll_in &&& poll_out ≠ 0 →
        (⟨5, 0, socket_write⟩ : Wait) ∈ s1.waits) ∧
      ∀ (env1 : Env) (fs : List (Wait × Bool)), (∀ f ∈ fs, f.1.weak_info = 0) →
        ∃ s2, fire_seq env1 fs s1 = .ok s2 ∧ s2.trace = s1.trace :=
  reentrant_remove_safe Env.passive
    ⟨fun _ => true, fun _ _ => [Call.socket_request 5 poll_remove (some 0)], []⟩
    [Op.socket_request 5 poll_in none, Op.fire ⟨5, 0, socket_read⟩ false]
    ⟨[⟨5, poll_in⟩], [some 0], [⟨5, 0, socket_read⟩], [], [],
      [Event.set_socket_data 5 0, Event.async_read_some 5 0,
       Event.async_read_some 5 0, Event.on_socket_event 5 socket_read]⟩
    5 0 0 socket_read ⟨5, poll_in⟩ false rfl rfl rfl (by decide) rfl

/-- C5: for a live record whose condition is read, with exactly one read wait
pending and a listener that does not call back from the read callback, every
completion of that wait first starts one new read wait on the same record and
then calls `on_socket_event(fd, socket_read)` once; after any number of
completions, with or without error codes, the trace has grown by exactly that
pair per completion and exactly one read wait is pending again. The same holds
for write. -/
theorem self_rearming (env : Env) (s : State) (fd : Int) (id dir cond : Nat)
    (info : boost_socket_info) (errors : List Bool)
    (hdir : (dir = socket_read ∧ cond = poll_in) ∨ (dir = socket_write ∧ cond = poll_out))
    (hlive : lock s id = some info) (hcond : info.what = cond)
    (hw : (⟨fd, id, dir⟩ : Wait) ∈ s.waits)
    (hpending : pending s id dir = 1)
    (hlistener : env.on_socket_event fd dir = []) :
    ∃ s1, fire_seq env (errors.map fun e => (⟨fd, id, dir⟩, e)) s = .ok s1 ∧
      s1.trace = s.trace ++ (errors.flatMap fun _ =>
        [if dir = socket_read then Event.async_read_some fd id
          else Event.async_write_some fd id,
         Event.on_socket_event fd dir]) ∧
      socket_event_calls s1 fd dir = socket_event_calls s fd dir + errors.length ∧
      pending s1 id dir = 1 ∧
      lock s1 id = some info := by
  induction errors generalizing s with
  | nil => exact ⟨s, rfl, by simp, by simp, hpending, hlive⟩
  | cons e es ih =>
    have hstep := fire_rearms env s fd id dir cond info e hdir hlive hcond hw hlistener
    obtain ⟨s1, h1, h2, h3, h4, h5⟩ := ih
      { s with
        waits := s.waits.erase ⟨fd, id, dir⟩ ++ [⟨fd, id, dir⟩],
        trace := s.trace ++
          [if dir = socket_read then Event.async_read_some fd id
            else Event.async_write_some fd id,
           Event.on_socket_event fd dir] }
      (by rw [← hlive]; exact lock_congr rfl rfl id)
      (by simp)
      (by rw [← hpending]; exact pending_erase_append s ⟨fd, id, dir⟩ hw _)
    refine ⟨s1, ?_, ?_, ?_, h4, h5⟩
    · simp only [List.map_cons, fire_seq, hstep]
      exact h1
    · rw [h2]
      simp [List.flatMap_cons]
    · rw [h3]
      have : socket_event_calls
          { s with
            waits := s.waits.erase ⟨fd, id, dir⟩ ++ [⟨fd, id, dir⟩],
            trace := s.trace ++
              [if dir = socket_read then Event.async_read_some fd id
                else Event.async_write_some fd id,
               Event.on_socket_event fd dir] } fd dir
          = socket_event_calls s fd dir + 1 := by
        simp only [socket_event_calls, List.count_append]
        rcases hdir with ⟨rfl, rfl⟩ | ⟨rfl, rfl⟩ <;> simp [List.count_cons]
      rw [this, List.length_cons]
      omega

/-- Witness for C5: descriptor 5 watches read with one read wait pending, and
the wait completes three times, once with an error code. -/
theorem self_rearming_witness :
    ∃ s1, fire_seq Env.passive
        ([false, true, false].map fun e => (⟨5, 0, socket_read⟩, e))
        ⟨[⟨5, poll_in⟩], [some 0], [⟨5, 0, socket_read⟩], [], [],
          [Event.set_socket_data 5 0, Event.async_read_some 5 0]⟩ = .ok s1 ∧
      s1.trace = [Event.set_socket_data 5 0, Event.async_read_some 5 0] ++
        ([false, true, false].flatMap fun _ =>
          [if socket_read = socket_read then Event.async_read_some 5 0
            else Event.async_write_some 5 0,
           Event.on_socket_event 5 socket_read]) ∧
      socket_event_calls s1 5 socket_read
        = socket_event_calls ⟨[⟨5, poll_in⟩], [some 0], [⟨5, 0, socket_read⟩], [], [],
          [Event.set_socket_data 5 0, Event.async_read_some 5 0]⟩ 5 socket_read
          + [false, true, false].length ∧
      pending s1 0 socket_read = 1 ∧
      lock s1 0 = some ⟨5, poll_in⟩ :=
  self_rearming Env.passive
    ⟨[⟨5, poll_in⟩], [some 0], [⟨5, 0, socket_read⟩], [], [],
      [Event.set_socket_data 5 0, Event.async_read_some 5 0]⟩
    5 0 socket_read poll_in ⟨5, poll_in⟩ [false, true, false]
    (Or.inl ⟨rfl, rfl⟩) rfl rfl (by decide) (by decide) rfl

/-- C4, as stated, fails: after `socket_request(5, poll_in, null)` and
`socket_request(5, poll_out, handle)`, the read wait that was pending when the
condition was narrowed completes, and `on_socket_event(5, socket_read)` is
called. -/
theorem narrowing_counterexample :
    ∃ s, run Env.passive
        [Op.socket_request 5 poll_in none, Op.socket_request 5 poll_out (some 0),
         Op.fire ⟨5, 0, socket_read⟩ false] State.init = .ok s ∧
      s.trace = [Event.set_socket_data 5 0, Event.async_read_some 5 0,
        Event.async_write_some 5 0, Event.on_socket_event 5 socket_read] ∧
      socket_event_calls s 5 socket_read = 1 :=
  ⟨_, rfl, rfl, rfl⟩

/-- C4, amended: in every reachable state, after `socket_request(fd, poll_in, null)`
and `socket_request(fd, poll_out, handle)` on the record just made, with a
listener that does not call back for `fd`, exactly one read wait is pending on
the record; when it completes it calls `on_socket_event(fd, socket_read)` once
and is not re-armed; and whatever completions bound to the record fire, in any
order, the read callbacks since the narrowing and the read waits still pending
add up to one. -/
theorem narrowing_one_stale_read (env : Env) (ops : List Op) (s : State) (fd : Int)
    (hreach : run env ops State.init = .ok s)
    (hassign : env.assign_ok fd = true)
    (hlistener : ∀ what, env.on_socket_event fd what = []) :
    ∃ s1 s2, socket_request env fd poll_in none s = .ok (0, s1) ∧
      socket_request env fd poll_out (some s.cells.length) s1 = .ok (0, s2) ∧
      pending s2 s.infos.length socket_read = 1 ∧
      (∀ error, ∃ s3, fire env ⟨fd, s.infos.length, socket_read⟩ error s2 = .ok s3 ∧
        socket_event_calls s3 fd socket_read = socket_event_calls s2 fd socket_read + 1 ∧
        pending s3 s.infos.length socket_read = 0) ∧
      ∀ fs : List (Wait × Bool), (∀ f ∈ fs, f.1.weak_info = s.infos.length) →
        ∃ s3, fire_seq env fs s2 = .ok s3 ∧
          socket_event_calls s3 fd socket_read + pending s3 s.infos.length socket_read
            = socket_event_calls s2 fd socket_read + 1 := by
  have hinv : Inv s := inv_run hreach inv_init
  obtain ⟨s1, h1, hi1, hc1, hw1, -⟩ := socket_request_new_read_fields env s fd hassign
  obtain ⟨s2, h2, hi2, hc2, hw2, -⟩ := socket_request_write_fields env s1 fd s.cells.length
    s.infos.length ⟨fd, poll_in⟩ (by simp [hc1]) (by simp [hi1])
  have hold : ∀ w ∈ s.waits, ¬ w.weak_info = s.infos.length := by
    intro w hw e
    have := hinv.waits_lt w hw
    omega
  have hfilter : s.waits.filter
      (fun x : Wait => decide (x.weak_info = s.infos.length ∧ x.what = socket_read)) = [] := by
    rw [List.filter_eq_nil_iff]
    intro w hw
    simp [hold w hw]
  have hp2 : pending s2 s.infos.length socket_read = 1 := by
    simp only [pending, hw2, hw1, List.filter_append, hfilter]
    simp
  have hn : Narrowed env fd s.infos.length s2 := by
    refine ⟨⟨⟨fd, poll_out⟩, ?_, by simp⟩, ?_, hlistener⟩
    · simp [lock, hc2, hc1, hi2, hi1]
    · intro w hw hid
      simp only [hw2, hw1, List.mem_append, List.mem_singleton] at hw
      rcases hw with (hw | hw) | hw
      · exact absurd hid (hold w hw)
      · rw [hw]
      · rw [hw]
  refine ⟨s1, s2, h1, h2, hp2, ?_, ?_⟩
  · intro error
    obtain ⟨s3, hf, -, hc, hp⟩ :=
      narrowed_fire env fd s.infos.length s2 ⟨fd, s.infos.length, socket_read⟩ error hn rfl
    have hmem : (⟨fd, s.infos.length, socket_read⟩ : Wait) ∈ s2.waits := by
      simp [hw2, hw1]
    simp only [hmem, and_self, if_true] at hc hp
    refine ⟨s3, hf, hc, ?_⟩
    rw [hp2] at hp
    omega
  · intro fs hfs
    obtain ⟨s3, hf, hsum⟩ := narrowed_fire_seq env fd s.infos.length s2 fs hn hfs
    refine ⟨s3, hf, ?_⟩
    rw [hsum, hp2]

/-- Witness for the amended C4: the two requests are made on a fresh event loop
for descriptor 5. -/
theorem narrowing_one_stale_read_witness :
    ∃ s1 s2, socket_request Env.passive 5 poll_in none State.init = .ok (0, s1) ∧
      socket_request Env.passive 5 poll_out (some State.init.cells.length) s1 = .ok (0, s2) ∧
      pending s2 State.init.infos.length socket_read = 1 ∧
      (∀ error, ∃ s3, fire Env.passive ⟨5, State.init.infos.length, socket_read⟩ error s2
          = .ok s3 ∧
        socket_event_calls s3 5 socket_read = socket_event_calls s2 5 socket_read + 1 ∧
        pending s3 State.init.infos.length socket_read = 0) ∧
      ∀ fs : List (Wait × Bool), (∀ f ∈ fs, f.1.weak_info = State.init.infos.length) →
        ∃ s3, fire_seq Env.passive fs s2 = .ok s3 ∧
          socket_event_calls s3 5 socket_read + pending s3 State.init.infos.length socket_read
            = socket_event_calls s2 5 socket_read + 1 :=
  narrowing_one_stale_read Env.passive [] State.init 5 rfl rfl (fun _ => rfl)

/-- C10, as stated, fails: read requested twice on descriptor 5 leaves two read
waits pending on the one record. -/
theorem pending_wait_counterexample :
    ∃ s, run Env.passive
        [Op.socket_request 5 poll_in none, Op.socket_request 5 poll_in (some 0)]
        State.init = .ok s ∧
      s.waits = [⟨5, 0, socket_read⟩, ⟨5, 0, socket_read⟩] ∧
      pending s 0 socket_read = 2 :=
  ⟨_, rfl, rfl, rfl⟩

/-- C10, amended: in every state reachable by requests and completions, every
record is owned by at most one handle cell and a record that still locks is
owned by exactly one; the pending waits are not limited to one per direction: a
`socket_request` for read (for write) with the handle of an existing record
always starts one more read (write) wait, whatever is pending already, and so
adds one weak reference. -/
theorem one_owner_any_number_of_waits (env : Env) (ops : List Op) (s : State)
    (hreach : run env ops State.init = .ok s) :
    (∀ id, use_count s id ≤ 1) ∧
    (∀ id info, lock s id = some info → use_count s id = 1) ∧
    (∀ fd h id, s.cells[h]? = some (some id) →
      (∃ s1, socket_request env fd poll_in (some h) s = .ok (0, s1) ∧
        pending s1 id socket_read = pending s id socket_read + 1 ∧
        weak_count s1 id = weak_count s id + 1) ∧
      (∃ s1, socket_request env fd poll_out (some h) s = .ok (0, s1) ∧
        pending s1 id socket_write = pending s id socket_write + 1 ∧
        weak_count s1 id = weak_count s id + 1)) := by
  have hinv : Inv s := inv_run hreach inv_init
  refine ⟨hinv.owner, ?_, ?_⟩
  · intro id info hl
    have hmem : some id ∈ s.cells := by
      unfold lock at hl
      split at hl
      · assumption
      · cases hl
    have hpos : 0 < s.cells.count (some id) := List.count_pos_iff.mpr hmem
    have := hinv.owner id
    unfold use_count
    omega
  · intro fd h id hcell
    have hlt : id < s.infos.length := hinv.cells_lt id (List.getElem?_mem hcell)
    have hinfo : s.infos[id]? = some s.infos[id] := List.getElem?_eq_getElem hlt
    obtain ⟨s1, h1, -, -, hw1, -⟩ := socket_request_read_fields env s fd h id _ hcell hinfo
    obtain ⟨s2, h2, -, -, hw2, -⟩ := socket_request_write_fields env s fd h id _ hcell hinfo
    refine ⟨⟨s1, h1, ?_, ?_⟩, ⟨s2, h2, ?_, ?_⟩⟩
    · simp [pending, hw1, List.filter_append]
    · simp [weak_count, hw1, List.filter_append]
    · simp [pending, hw2, List.filter_append]
    · simp [weak_count, hw2, List.filter_append]

/-- Witness for the amended C10: the state after one read request on descriptor 5. -/
theorem one_owner_any_number_of_waits_witness :
    (∀ id, use_count ⟨[⟨5, poll_in⟩], [some 0], [⟨5, 0, socket_read⟩], [], [],
      [Event.set_socket_data 5 0, Event.async_read_some 5 0]⟩ id ≤ 1) ∧
    (∀ id info, lock ⟨[⟨5, poll_in⟩], [some 0], [⟨5, 0, socket_read⟩], [], [],
        [Event.set_socket_data 5 0, Event.async_read_some 5 0]⟩ id = some info →
      use_count ⟨[⟨5, poll_in⟩], [some 0], [⟨5, 0, socket_read⟩], [], [],
        [Event.set_socket_data 5 0, Event.async_read_some 5 0]⟩ id = 1) ∧
    (∀ fd h id, (⟨[⟨5, poll_in⟩], [some 0], [⟨5, 0, socket_read⟩], [], [],
        [Event.set_socket_data 5 0, Event.async_read_some 5 0]⟩ : State).cells[h]?
          = some (some id) →
      (∃ s1, socket_request Env.passive fd poll_in (some h)
          ⟨[⟨5, poll_in⟩], [some 0], [⟨5, 0, socket_read⟩], [], [],
            [Event.set_socket_data 5 0, Event.async_read_some 5 0]⟩ = .ok (0, s1) ∧
        pending s1 id socket_read
          = pending ⟨[⟨5, poll_in⟩], [some 0], [⟨5, 0, socket_read⟩], [], [],
            [Event.set_socket_data 5 0, Event.async_read_some 5 0]⟩ id socket_read + 1 ∧
        weak_count s1 id
          = weak_count ⟨[⟨5, poll_in⟩], [some 0], [⟨5, 0, socket_read⟩], [], [],
            [Event.set_socket_data 5 0, Event.async_read_some 5 0]⟩ id + 1) ∧
      (∃ s1, socket_request Env.passive fd poll_out (some h)
          ⟨[⟨5, poll_in⟩], [some 0], [⟨5, 0, socket_read⟩], [], [],
            [Event.set_socket_data 5 0, Event.async_read_some 5 0]⟩ = .ok (0, s1) ∧
        pending s1 id socket_write
          = pending ⟨[⟨5, poll_in⟩], [some 0], [⟨5, 0, socket_read⟩], [], [],
            [Event.set_socket_data 5 0, Event.async_read_some 5 0]⟩ id socket_write + 1 ∧
        weak_count s1 id
          = weak_count ⟨[⟨5, poll_in⟩], [some 0], [⟨5, 0, socket_read⟩], [], [],
            [Event.set_socket_data 5 0, Event.async_read_some 5 0]⟩ id + 1)) :=
  one_owner_any_number_of_waits Env.passive [Op.socket_request 5 poll_in none] _ rfl

/-- C6, as stated, fails: a second `poll_remove` with the handle already removed
does not return 0 but deletes the deleted cell again, and a `poll_remove` with a
null handle dereferences it; both are undefined behaviour. -/
theorem double_remove_counterexample :
    run Env.passive
        [Op.socket_request 5 poll_in none, Op.socket_request 5 poll_remove (some 0),
         Op.socket_request 5 poll_remove (some 0)] State.init
      = .error Failure.undefined_behaviour ∧
    socket_request Env.passive 5 poll_remove none State.init
      = .error Failure.undefined_behaviour :=
  ⟨rfl, rfl⟩

/-- C6, amended: a `poll_remove` with the handle of a record that was not removed
yet returns 0, deletes that one cell, and leaves the records, the pending waits,
the run queue and the trace (so the listener) untouched; the request is not
idempotent: repeated with the same handle, or made with a null handle, it does
not return but dereferences and deletes the handle all the same, which is
undefined behaviour. -/
theorem remove_once (env : Env) (s : State) (fd : Int) (h id : Nat)
    (hcell : s.cells[h]? = some (some id)) :
    socket_request env fd poll_remove (some h) s
      = .ok (0, { s with cells := s.cells.set h none }) ∧
    socket_request env fd poll_remove (some h) { s with cells := s.cells.set h none }
      = .error Failure.undefined_behaviour ∧
    socket_request env fd poll_remove none s = .error Failure.undefined_behaviour := by
  refine ⟨socket_request_remove env fd h id s hcell, ?_, by simp [socket_request]⟩
  have hlt : h < s.cells.length := (List.getElem?_eq_some.mp hcell).1
  simp [socket_request, List.getElem?_set, hlt]

/-- Witness for the amended C6: the record of descriptor 5 is removed. -/
theorem remove_once_witness :
    socket_request Env.passive 5 poll_remove (some 0)
        ⟨[⟨5, poll_in⟩], [some 0], [⟨5, 0, socket_read⟩], [], [], []⟩
      = .ok (0, ⟨[⟨5, poll_in⟩], [none], [⟨5, 0, socket_read⟩], [], [], []⟩) ∧
    socket_request Env.passive 5 poll_remove (some 0)
        ⟨[⟨5, poll_in⟩], [none], [⟨5, 0, socket_read⟩], [], [], []⟩
      = .error Failure.undefined_behaviour ∧
    socket_request Env.passive 5 poll_remove none
        ⟨[⟨5, poll_in⟩], [some 0], [⟨5, 0, socket_read⟩], [], [], []⟩
      = .error Failure.undefined_behaviour :=
  remove_once Env.passive ⟨[⟨5, poll_in⟩], [some 0], [⟨5, 0, socket_read⟩], [], [], []⟩
    5 0 0 rfl

/-- C9, as stated, fails: when the reactor rejects descriptor -1 while it is
wrapped in a new record, `socket_request` returns no status at all: the
exception thrown by `socket.assign` leaves it. -/
theorem status_code_counterexample :
    socket_request Env.strict (-1) poll_in none State.init = .error Failure.system_error :=
  rfl

/-- C9, amended: `socket_request` returns 0 whenever it returns, and never a
nonzero status: it returns 0 in particular whenever the reactor accepts the
descriptor of a request that needs a new record; a rejection by the reactor is
not turned into a status: when the reactor rejects the descriptor while it is
wrapped in a new record, the exception of `socket.assign` leaves
`socket_request`, and this is the only case in which an exception leaves it;
`timer_request` and `post` always return, `timer_request` with status 0, and
let no exception out. -/
theorem status_always_zero (env : Env) :
    (∀ fd what data s r s1, socket_request env fd what data s = .ok (r, s1) → r = 0) ∧
    (∀ fd what s, what ≠ poll_remove → env.assign_ok fd = true →
      ∃ s1, socket_request env fd what none s = .ok (0, s1)) ∧
    (∀ fd what data s, socket_request env fd what data s = .error Failure.system_error ↔
      what ≠ poll_remove ∧ data = none ∧ env.assign_ok fd = false) ∧
    (∀ timeout_ms s, (timer_request timeout_ms s).1 = 0 ∧
      step env (Op.timer_request timeout_ms) s = .ok (timer_request timeout_ms s).2 ∧
      call env (Call.timer_request timeout_ms) s = .ok (timer_request timeout_ms s).2) ∧
    (∀ func s, step env (Op.post func) s = .ok (post func s)) := by
  refine ⟨?_, ?_, ?_, ?_, fun _ _ => rfl⟩
  · intro fd what data s r s1 hr
    unfold socket_request at hr
    split at hr
    · split at hr
      · cases hr
      · split at hr
        · simp only [Except.ok.injEq, Prod.mk.injEq] at hr
          exact hr.1.symm
        · cases hr
    · split at hr
      · cases hr
      · split at hr
        · split at hr
          · simp only [Except.ok.injEq, Prod.mk.injEq] at hr
            exact hr.1.symm
          · cases hr
        · cases hr
  · intro fd what s hwhat hassign
    simp [socket_request, make_pointer, hwhat, hassign]
  · intro fd what data s
    constructor
    · intro hr
      unfold socket_request at hr
      split at hr
      · split at hr
        · cases hr
        · split at hr
          · cases hr
          · cases hr
      · rename_i hwhat
        cases data with
        | none =>
          refine ⟨hwhat, rfl, ?_⟩
          by_cases hassign : env.assign_ok fd = true
          · simp [make_pointer, hassign] at hr
          · simpa using hassign
        | some h =>
          simp only at hr
          split at hr
          · split at hr
            · cases hr
            · cases hr
          · cases hr
    · rintro ⟨hwhat, rfl, hreject⟩
      simp [socket_request, make_pointer, hwhat, hreject]
  · intro timeout_ms s
    refine ⟨?_, rfl, rfl⟩
    unfold timer_request
    split <;> rfl

/-- Witness for the amended C9: the reactor that rejects negative descriptors
lets the exception out for descriptor -1 and returns 0 for descriptor 5. -/
theorem status_always_zero_witness :
    socket_request Env.strict (-1) poll_in none State.init = .error Failure.system_error ∧
    (∃ s1, socket_request Env.strict 5 poll_in none State.init = .ok (0, s1)) ∧
    (timer_request 0 State.init).1 = 0 ∧
    step Env.strict (Op.post []) State.init = .ok (post [] State.init) :=
  ⟨((status_always_zero Env.strict).2.2.1 (-1) poll_in none State.init).mpr
      ⟨by decide, rfl, rfl⟩,
   (status_always_zero Env.strict).2.1 5 poll_in State.init (by decide) rfl,
   ((status_always_zero Env.strict).2.2.2.1 0 State.init).1,
   (status_always_zero Env.strict).2.2.2.2 [] State.init⟩

/-- C3, evaluated on the code: a `socket_request` whose condition is read+write
(`poll_in | poll_out`) starts no wait at all, neither on a new record nor on an
existing one with no wait pending, because the condition is compared with
`poll_in` and with `poll_out` for equality: whenever a request with a condition
other than exactly `poll_in` or exactly `poll_out` returns, the pending waits
are what they were. A request for read alone does start the read wait. -/
theorem read_write_request_starts_no_wait :
    (∃ s, run Env.passive
        [Op.socket_request 5 (poll_in ||| poll_out) none,
         Op.socket_request 5 (poll_in ||| poll_out) (some 0)] State.init = .ok s ∧
      s.infos = [⟨5, poll_in ||| poll_out⟩] ∧ s.cells = [some 0] ∧ s.waits = [] ∧
      s.trace = [Event.set_socket_data 5 0]) ∧
    (∀ (env : Env) (fd : Int) (data : Option Nat) (s s1 : State) (r : Int),
      socket_request env fd (poll_in ||| poll_out) data s = .ok (r, s1) →
        s1.waits = s.waits) ∧
    (∀ (env : Env) (fd : Int) (what : Nat) (data : Option Nat) (s s1 : State) (r : Int),
      what ≠ poll_in → what ≠ poll_out →
      socket_request env fd what data s = .ok (r, s1) → s1.waits = s.waits) ∧
    (∃ s, run Env.passive [Op.socket_request 5 poll_in none] State.init = .ok s ∧
      s.waits = [⟨5, 0, socket_read⟩]) :=
  ⟨⟨_, rfl, rfl, rfl, rfl, rfl⟩,
   fun env fd data s s1 r hr =>
     socket_request_waits_of_ne env fd _ data s s1 r (by decide) (by decide) hr,
   socket_request_waits_of_ne, ⟨_, rfl, rfl⟩⟩

/-- C2, evaluated on the code: for all timeouts, `timer_request(t1)` directly
followed by `timer_request(t2)` on a fresh event loop leads to two calls of
`on_timer()` once the deadline has passed and the run queue was drained: the
handler of the replaced request is run as well, because the handler bound by
`timer_request` drops the error code that reports the cancellation, and a
posted call cannot be cancelled. For 100 then 50, the cancelled wait's handler
is on the run queue right after the second request. -/
theorem timer_replace_fires_twice (t1 t2 : Int) :
    (∃ s, poll Env.passive 2
        (expire (timer_request t2 (timer_request t1 State.init).2).2) = .ok s ∧
      on_timer_calls s = 2 ∧ s.queue = [] ∧ s.timer_waits = []) ∧
    (timer_request 50 (timer_request 100 State.init).2).2.queue = [Task.on_timer true] ∧
    (timer_request 50 (timer_request 100 State.init).2).2.timer_waits = [50] ∧
    (∃ s, poll Env.passive 2
        (expire (timer_request 50 (timer_request 100 State.init).2).2) = .ok s ∧
      listener_calls s.trace = [Event.on_timer, Event.on_timer]) := by
  refine ⟨?_, rfl, rfl, ⟨_, rfl, rfl⟩⟩
  by_cases h1 : t1 = 0 <;> by_cases h2 : t2 = 0 <;>
    simp [timer_request, timer_cancel, expire, poll, run_one, exec_calls, Env.passive,
      State.init, on_timer_calls, h1, h2, List.count_cons]

/-- C8, evaluated on the code: `timer_request` returns 0 and calls no listener
callback on the caller's stack, for every timeout and state, and
`timer_request(0)` appends to the run queue the handlers of the waits it
cancelled and then one posted handler; so after `timer_request(100)`, the call
`timer_request(0)` leaves two handlers that call `on_timer()` on the run queue,
the one of the cancelled wait and the posted one, and draining the queue calls
`on_timer()` twice. On a fresh event loop it leaves exactly one. -/
theorem zero_timeout_after_pending_wait :
    (∀ (timeout_ms : Int) (s : State),
      (timer_request timeout_ms s).1 = 0 ∧
      listener_calls (timer_request timeout_ms s).2.trace = listener_calls s.trace) ∧
    (∀ s : State, (timer_request 0 s).2.queue
      = s.queue ++ s.timer_waits.map (fun _ => Task.on_timer true) ++ [Task.on_timer false]) ∧
    (timer_request 0 (timer_request 100 State.init).2).2.queue
      = [Task.on_timer true, Task.on_timer false] ∧
    (∃ s, poll Env.passive 2 (timer_request 0 (timer_request 100 State.init).2).2 = .ok s ∧
      on_timer_calls s = 2 ∧ s.queue = []) ∧
    (timer_request 0 State.init).2.queue = [Task.on_timer false] := by
  refine ⟨?_, fun s => rfl, rfl, ⟨_, rfl, rfl, rfl⟩, rfl⟩
  intro timeout_ms s
  unfold timer_request timer_cancel
  split <;> simp [listener_calls, List.filter_append]

end ioremap.swarm
